import Mathlib

/-
Verification of the dbloada source-resolution and table-materialization
pipeline against its design specification.

The Rust source is modelled shallowly:

* Rust `String`/`&str` values are Lean `String`s (a structure over `List Char`
  in this toolchain); character-level operations work on `String.data`.
* Machine integers (`usize`, `u64`) are `Nat` (no arithmetic here overflows).
* Fallible functions returning `Result<T, E>` become `Except E T`.
* The external `csv` crate is abstracted: the parser is modelled at the level
  of the record list the crate produces (a `List (List String)`), and the
  `encoding_rs` crate is abstracted as a registry mapping encoding labels to
  strict decoders (`String → Option (List Nat → Option String)`).
* Async I/O side effects (file reads, process spawns) are passed in as
  explicit values describing their outcomes.
-/

deriving instance DecidableEq for Except

namespace Dbloada

/-- Unicode `White_Space` predicate, the character class used by Rust's
`str::trim` (`char::is_whitespace`). -/
def isRustWhitespace (c : Char) : Bool :=
  let n := c.toNat
  (0x09 ≤ n && n ≤ 0x0D) || n = 0x20 || n = 0x85 || n = 0xA0 || n = 0x1680 ||
  (0x2000 ≤ n && n ≤ 0x200A) || n = 0x2028 || n = 0x2029 || n = 0x202F ||
  n = 0x205F || n = 0x3000

/-- Rust `str::trim` on the character list: drop leading whitespace, then
drop trailing whitespace. -/
def trimList (l : List Char) : List Char :=
  ((l.dropWhile isRustWhitespace).reverse.dropWhile isRustWhitespace).reverse

/-- Rust `str::trim` lifted to `String` (used for `stderr.trim()` in
`CmdCsvTableReader::read_table`). -/
def rustTrim (s : String) : String := ⟨trimList s.data⟩

/-- Embedding of the quote-stripping step of `strip_csv_field`
(`csv_parser_impl.rs`): `trimmed.strip_prefix('"').and_then(|s|
s.strip_suffix('"')).unwrap_or(trimmed)`.  The prefix strip fires when the
head is `"`; the suffix strip then fires when the remainder is nonempty and
ends in `"`; otherwise the input is returned unchanged. -/
def stripQuotePair : List Char → List Char
  | [] => []
  | c :: rest =>
    if c = '"' then
      match rest.reverse with
      | q :: midRev => if q = '"' then midRev.reverse else c :: rest
      | [] => c :: rest
    else c :: rest

/-- Embedding of `strip_csv_field` (`csv_parser_impl.rs`, lines 16–23):
trim whitespace, then strip one layer of matching double quotes. -/
def strip_csv_field (s : String) : String := ⟨stripQuotePair (trimList s.data)⟩

theorem dropWhile_dropWhile_same (p : Char → Bool) (l : List Char) :
    (l.dropWhile p).dropWhile p = l.dropWhile p := by
  induction l with
  | nil => rfl
  | cons c cs ih =>
    by_cases h : p c
    · simp [List.dropWhile, h, ih]
    · simp [List.dropWhile, h]

theorem head?_dropWhile_false (p : Char → Bool) (l : List Char) :
    ∀ c, (l.dropWhile p).head? = some c → p c = false := by
  induction l with
  | nil => intro c h; simp at h
  | cons a as ih =>
    intro c h
    by_cases ha : p a
    · exact ih c (by simpa [List.dropWhile, ha] using h)
    · simp [List.dropWhile, ha] at h
      subst h
      simpa using ha

theorem dropWhile_eq_self_of_head (p : Char → Bool) (l : List Char)
    (h : ∀ c, l.head? = some c → p c = false) : l.dropWhile p = l := by
  cases l with
  | nil => rfl
  | cons c cs => simp [List.dropWhile, h c rfl]

theorem getLast?_dropWhile_of_ne_nil (p : Char → Bool) (l : List Char)
    (h : l.dropWhile p ≠ []) : (l.dropWhile p).getLast? = l.getLast? := by
  obtain ⟨pre, hpre⟩ := List.dropWhile_suffix (l := l) p
  calc (l.dropWhile p).getLast? = (pre ++ l.dropWhile p).getLast? :=
        (List.getLast?_append_of_ne_nil pre h).symm
    _ = l.getLast? := by rw [hpre]

theorem trimList_idem (l : List Char) : trimList (trimList l) = trimList l := by
  unfold trimList
  set A := l.dropWhile isRustWhitespace with hA
  set B := A.reverse.dropWhile isRustWhitespace with hB
  have hBrev : B.reverse.dropWhile isRustWhitespace = B.reverse := by
    apply dropWhile_eq_self_of_head
    intro c hc
    rw [List.head?_reverse] at hc
    by_cases hBnil : B = []
    · simp [hBnil] at hc
    · have h1 : B.getLast? = A.reverse.getLast? :=
        getLast?_dropWhile_of_ne_nil _ _ (hB ▸ hBnil)
      rw [h1, List.getLast?_reverse] at hc
      exact head?_dropWhile_false isRustWhitespace l c (hA ▸ hc)
  rw [hBrev, List.reverse_reverse]
  rw [dropWhile_dropWhile_same]

/-- Embedding of `ColumnIdentifier` (`models/project.rs`): a column is
addressed either by zero-based index (`u64`, modelled as `Nat`) or by header
name. -/
inductive ColumnIdentifier where
  | Index : Nat → ColumnIdentifier
  | Name : String → ColumnIdentifier
deriving DecidableEq

/-- Embedding of `ColumnType` (`models/project.rs`). -/
inductive ColumnType where
  | String : ColumnType
deriving DecidableEq

/-- Embedding of `ColumnSpec` (`models/project.rs`). -/
structure ColumnSpec where
  name : String
  description : String
  column_identifier : ColumnIdentifier
  column_type : ColumnType
deriving DecidableEq

/-- Embedding of `FileSourceSpec` (`models/project.rs`). -/
structure FileSourceSpec where
  filename : String
  character_encoding : String
deriving DecidableEq

/-- Embedding of `CmdSourceSpec` (`models/project.rs`). -/
structure CmdSourceSpec where
  command : String
  args : List String
  stdout : Bool
  character_encoding : String
deriving DecidableEq

/-- Embedding of `SourceSpec` (`models/project.rs`): tagged union of the two
source kinds. -/
inductive SourceSpec where
  | File : FileSourceSpec → SourceSpec
  | Cmd : CmdSourceSpec → SourceSpec
deriving DecidableEq

/-- Embedding of `RelationshipSpec` (`models/project.rs`); carried through as
metadata only. -/
structure RelationshipSpec where
  name : String
  description : String
  source_column : String
  target_table : String
  target_column : String
deriving DecidableEq

/-- Embedding of `TableSpec` (`models/project.rs`). -/
structure TableSpec where
  name : String
  description : String
  has_header : Bool
  source : SourceSpec
  columns : List ColumnSpec
  relationships : List RelationshipSpec
deriving DecidableEq

/-- Embedding of the materialized `Table` (`models/table.rs`). -/
structure Table where
  name : String
  columns : List String
  rows : List (List String)
deriving DecidableEq

/-- Embedding of `Table::headers`. -/
def Table.headers (t : Table) : List String := t.columns

/-- Embedding of `Table::num_rows`. -/
def Table.num_rows (t : Table) : Nat := t.rows.length

/-- Embedding of `Table::num_columns`. -/
def Table.num_columns (t : Table) : Nat := t.columns.length

/-- Embedding of `Table::row` (`models/table.rs`, lines 27–29):
`self.rows.get(index)`. -/
def Table.row (t : Table) (index : Nat) : Option (List String) :=
  t.rows.get? index

/-- Embedding of `Table::cell` (`models/table.rs`, lines 31–33):
`self.rows.get(row).and_then(|r| r.get(col))`. -/
def Table.cell (t : Table) (row col : Nat) : Option String :=
  (t.rows.get? row).bind (fun r => r.get? col)

/-- Embedding of `Project` / `ProjectSpec` / `LoadedProject`
(`models/project.rs`).  `LoadedProject` pairs a project with its materialized
tables. -/
structure ProjectSpec where
  tables : List TableSpec
deriving DecidableEq

structure Project where
  name : String
  api_version : String
  spec : ProjectSpec
deriving DecidableEq

structure LoadedProject where
  project : Project
  tables : List Table
deriving DecidableEq

/-- Association-list model of the Rust `HashMap<String, usize>` header map.
Insertion prepends, so `lookupHeader` (first match) always sees the most
recent insertion — exactly `HashMap` insert-overwrite semantics as observed
through `get`. -/
def insertHeader (m : List (String × Nat)) (k : String) (v : Nat) :
    List (String × Nat) :=
  (k, v) :: m

/-- Lookup in the header-map model: the Rust `map.get(name)`. -/
def lookupHeader (m : List (String × Nat)) (n : String) : Option Nat :=
  (m.find? (fun p => p.1 == n)).map (·.2)

/-- Embedding of the header-map construction in `CsvParserImpl::parse`
(`csv_parser_impl.rs`, lines 75–79):
`headers.iter().enumerate().map(|(i, h)| (strip_csv_field(h), i)).collect()`.
Collecting into a `HashMap` inserts pairs in iteration order, later inserts
overwriting earlier ones. -/
def buildHeaderMap (hs : List String) : List (String × Nat) :=
  hs.enum.foldl (fun m p => insertHeader m (strip_csv_field p.2) p.1) []

/-- Specification-level lookup: position of the last header (at offset `i`)
whose canonical form equals `n`.  Used to characterize `buildHeaderMap`. -/
def lookupLast (n : String) (i : Nat) : List String → Option Nat
  | [] => none
  | h :: t =>
    match lookupLast n (i + 1) t with
    | some p => some p
    | none => if strip_csv_field h == n then some i else none

/-- Claim C7 — counterexample.  The claim asserts `strip(strip(x)) = strip(x)`
for every string `x`; it fails at `x = "\" a \""`: the first application
strips the quote layer and exposes untrimmed whitespace (`" a "`), and the
second application trims it to `"a"`. -/
theorem strip_csv_field_not_idem_counterexample :
    strip_csv_field (strip_csv_field "\" a \"") ≠ strip_csv_field "\" a \"" := by
  decide

/-- Claim C7 — amended.  `strip_csv_field` is idempotent on every string `x`
on which the quote-stripping step is the identity, i.e. whose trimmed form
does not both begin and end with a double quote (so no quote layer is
removed); in general a second application can trim newly exposed whitespace
or strip a second quote layer, as the counterexample shows. -/
theorem strip_csv_field_idem_of_no_quote_pair (x : String)
    (h : stripQuotePair (trimList x.data) = trimList x.data) :
    strip_csv_field (strip_csv_field x) = strip_csv_field x := by
  show String.mk (stripQuotePair (trimList (String.mk (stripQuotePair (trimList x.data))).data)) = _
  simp only [h]
  show String.mk (stripQuotePair (trimList (trimList x.data))) = _
  rw [trimList_idem, h]
  unfold strip_csv_field
  rw [h]

/-- Claim C7 — witness for the amended theorem at `x = "  hello  "`. -/
theorem strip_csv_field_idem_witness :
    strip_csv_field (strip_csv_field "  hello  ") = strip_csv_field "  hello  " :=
  strip_csv_field_idem_of_no_quote_pair "  hello  " (by decide)

/-- Claim C10.  `Table::cell` returns `none` (rather than failing) whenever
the row index is at or beyond `rows.length` or the column index is at or
beyond that row's length, and `Table::row` returns `none` whenever its index
is at or beyond `rows.length`; both return the stored value in `some`
otherwise. -/
theorem table_cell_row_out_of_bounds (t : Table) (r c : Nat) :
    (t.rows.length ≤ r → t.cell r c = none ∧ t.row r = none) ∧
    (∀ rw, t.rows[r]? = some rw →
      t.row r = some rw ∧
      (rw.length ≤ c → t.cell r c = none) ∧
      (∀ v, rw[c]? = some v → t.cell r c = some v)) := by
  constructor
  · intro h
    have hr : t.rows[r]? = none := List.getElem?_eq_none h
    constructor <;> simp [Table.cell, Table.row, hr]
  · intro rw hrw
    refine ⟨?_, fun h2 => ?_, fun v hv => ?_⟩
    · simp [Table.row, hrw]
    · have hc : rw[c]? = none := List.getElem?_eq_none h2
      simp [Table.cell, hrw, hc]
    · simp [Table.cell, hrw, hv]

/-- Claim C10 — witness on the one-row table `{name := "t", columns := ["a"],
rows := [["x"]]}`: row 1 and cell (1,0) are out of bounds, cell (0,0) holds
the stored value. -/
theorem table_cell_row_witness :
    (Table.mk "t" ["a"] [["x"]]).cell 1 0 = none ∧
    (Table.mk "t" ["a"] [["x"]]).row 1 = none ∧
    (Table.mk "t" ["a"] [["x"]]).cell 0 0 = some "x" :=
  ⟨((table_cell_row_out_of_bounds (Table.mk "t" ["a"] [["x"]]) 1 0).1 (by decide)).1,
   ((table_cell_row_out_of_bounds (Table.mk "t" ["a"] [["x"]]) 1 0).1 (by decide)).2,
   ((table_cell_row_out_of_bounds (Table.mk "t" ["a"] [["x"]]) 0 0).2 ["x"] rfl).2.2 "x" rfl⟩

theorem lookupHeader_insertHeader (m : List (String × Nat)) (k : String)
    (v : Nat) (n : String) :
    lookupHeader (insertHeader m k v) n =
      if k == n then some v else lookupHeader m n := by
  by_cases h : k == n <;> simp [lookupHeader, insertHeader, List.find?_cons, h]

theorem lookup_foldl_enumFrom (t : List String) :
    ∀ (i : Nat) (m : List (String × Nat)) (n : String),
    lookupHeader ((List.enumFrom i t).foldl
        (fun m p => insertHeader m (strip_csv_field p.2) p.1) m) n
    = (lookupLast n i t).or (lookupHeader m n) := by
  induction t with
  | nil => intro i m n; simp [lookupLast, List.enumFrom]
  | cons h t ih =>
    intro i m n
    simp only [List.enumFrom, List.foldl_cons]
    rw [ih (i + 1), lookupHeader_insertHeader]
    cases hl : lookupLast n (i + 1) t with
    | some p => simp [lookupLast, hl]
    | none =>
      by_cases hs : strip_csv_field h == n
      · simp [lookupLast, hl, hs]
      · simp [lookupLast, hl, hs]

theorem lookupLast_eq_none (t : List String) :
    ∀ (n : String) (i : Nat),
    lookupLast n i t = none ↔
      ∀ j, j < t.length → strip_csv_field (t.getD j "") ≠ n := by
  induction t with
  | nil => intro n i; simp [lookupLast]
  | cons h t ih =>
    intro n i
    constructor
    · intro he j hj
      cases hl : lookupLast n (i + 1) t with
      | some p => simp [lookupLast, hl] at he
      | none =>
        have hs : ¬(strip_csv_field h == n) := by
          intro hs; simp [lookupLast, hl, hs] at he
        cases j with
        | zero =>
          simpa [List.getD_cons_zero] using fun hh => hs (beq_iff_eq.mpr hh)
        | succ j' =>
          have hlen : j' < t.length := by simpa using hj
          simpa [List.getD_cons_succ] using (ih n (i + 1)).mp hl j' hlen
    · intro hall
      cases hl : lookupLast n (i + 1) t with
      | some p =>
        exfalso
        have hnone : lookupLast n (i + 1) t = none :=
          (ih n (i + 1)).mpr (fun j hj => by
            simpa [List.getD_cons_succ] using hall (j + 1) (by simpa using hj))
        rw [hl] at hnone
        exact Option.noConfusion hnone
      | none =>
        have h0 : strip_csv_field h ≠ n := by
          simpa [List.getD_cons_zero] using hall 0 (by simp)
        simp [lookupLast, hl, beq_eq_false_iff_ne.mpr h0]

theorem lookupLast_eq_some (t : List String) :
    ∀ (n : String) (i p : Nat),
    lookupLast n i t = some p ↔
      ∃ j, j < t.length ∧ p = i + j ∧ strip_csv_field (t.getD j "") = n ∧
        ∀ q, j < q → q < t.length → strip_csv_field (t.getD q "") ≠ n := by
  induction t with
  | nil => intro n i p; simp [lookupLast]
  | cons h t ih =>
    intro n i p
    cases hl : lookupLast n (i + 1) t with
    | some p' =>
      obtain ⟨j', hj'len, hp', hmatch, hmax⟩ := (ih n (i + 1) p').mp hl
      constructor
      · intro he
        have hpp' : p' = p := by simpa [lookupLast, hl] using he
        have hpp : p = p' := hpp'.symm
        refine ⟨j' + 1, by simpa using Nat.succ_lt_succ hj'len, by omega,
          by simpa [List.getD_cons_succ] using hmatch, ?_⟩
        intro q hq1 hq2
        cases q with
        | zero => omega
        | succ q' =>
          have : j' < q' := by omega
          simpa [List.getD_cons_succ] using hmax q' this (by simpa using hq2)
      · rintro ⟨j, hjlen, hpj, hjm, hjmax⟩
        cases j with
        | zero =>
          exfalso
          have := hjmax (j' + 1) (by omega) (by simpa using Nat.succ_lt_succ hj'len)
          exact this (by simpa [List.getD_cons_succ] using hmatch)
        | succ j'' =>
          have htail : lookupLast n (i + 1) t = some ((i + 1) + j'') :=
            (ih n (i + 1) ((i + 1) + j'')).mpr
              ⟨j'', by simpa using hjlen, rfl,
               by simpa [List.getD_cons_succ] using hjm,
               fun q hq1 hq2 => by
                 simpa [List.getD_cons_succ] using
                   hjmax (q + 1) (by omega) (by simpa using Nat.succ_lt_succ hq2)⟩
          rw [hl] at htail
          have : p' = (i + 1) + j'' := by simpa using htail
          simp [lookupLast, hl, this]
          omega
    | none =>
      have hnone := (lookupLast_eq_none t n (i + 1)).mp hl
      by_cases hs : strip_csv_field h = n
      · constructor
        · intro he
          have hpi' : i = p := by simpa [lookupLast, hl, beq_iff_eq.mpr hs] using he
          have hpi : p = i := hpi'.symm
          refine ⟨0, by simp, by omega, by simpa [List.getD_cons_zero] using hs, ?_⟩
          intro q hq1 hq2
          cases q with
          | zero => omega
          | succ q' =>
            simpa [List.getD_cons_succ] using hnone q' (by simpa using hq2)
        · rintro ⟨j, hjlen, hpj, hjm, hjmax⟩
          cases j with
          | zero =>
            have hpi : p = i := by omega
            simp [lookupLast, hl, beq_iff_eq.mpr hs, hpi]
          | succ j'' =>
            exfalso
            exact hnone j'' (by simpa using hjlen)
              (by simpa [List.getD_cons_succ] using hjm)
      · constructor
        · intro he
          exfalso
          simp [lookupLast, hl, beq_eq_false_iff_ne.mpr hs] at he
        · rintro ⟨j, hjlen, hpj, hjm, hjmax⟩
          exfalso
          cases j with
          | zero => exact hs (by simpa [List.getD_cons_zero] using hjm)
          | succ j'' =>
            exact hnone j'' (by simpa using hjlen)
              (by simpa [List.getD_cons_succ] using hjm)

theorem buildHeaderMap_lookup (hs : List String) (n : String) :
    lookupHeader (buildHeaderMap hs) n = lookupLast n 0 hs := by
  have h := lookup_foldl_enumFrom hs 0 [] n
  simpa [buildHeaderMap, List.enum, lookupHeader] using h

/-- Claim C6.  The header map is built from the first record by canonicalizing
each header value with `strip_csv_field` (whitespace trim plus one layer of
matching double-quote stripping) and mapping the canonical value to its
zero-based position; a lookup returns position `p` exactly when header `p`
canonicalizes to the looked-up value and no later header does — i.e. the last
occurrence wins on duplicates. -/
theorem header_map_last_occurrence_wins (hs : List String) (n : String) (p : Nat) :
    lookupHeader (buildHeaderMap hs) n = some p ↔
      (p < hs.length ∧ strip_csv_field (hs.getD p "") = n ∧
       ∀ q, p < q → q < hs.length → strip_csv_field (hs.getD q "") ≠ n) := by
  rw [buildHeaderMap_lookup, lookupLast_eq_some]
  constructor
  · rintro ⟨j, hjlen, hpj, hjm, hjmax⟩
    have : p = j := by omega
    subst this
    exact ⟨hjlen, hjm, hjmax⟩
  · rintro ⟨h1, h2, h3⟩
    exact ⟨p, h1, by omega, h2, h3⟩

/-- Claim C6 — witness: in header list `["A", "B", "A"]` the duplicate header
`A` resolves to its last position, 2. -/
theorem header_map_last_occurrence_witness :
    lookupHeader (buildHeaderMap ["A", "B", "A"]) "A" = some 2 :=
  (header_map_last_occurrence_wins ["A", "B", "A"] "A" 2).mpr
    ⟨by decide, by decide, fun q hq1 hq2 => by
      exfalso
      simp only [List.length_cons, List.length_nil] at hq2
      omega⟩

/-- Embedding of `CsvParserError` (`traits/csv_parser.rs`). -/
inductive CsvParserError where
  | ParseError : (table_name : String) → (message : String) → CsvParserError
deriving DecidableEq

/-- Message of the "name identifier used without header" `ParseError`
(`csv_parser_impl.rs`, lines 36–39). -/
def noHeaderMsg (colName idName : String) : String :=
  "column '" ++ colName ++ "' uses name identifier '" ++ idName ++
  "' but has_header is false"

/-- Message of the "header not found" `ParseError` (`csv_parser_impl.rs`,
lines 43–46). -/
def notFoundMsg (colName idName : String) : String :=
  "column '" ++ colName ++ "' references header '" ++ idName ++
  "' which was not found in CSV headers"

/-- Embedding of the loop body of `resolve_column_indices`
(`csv_parser_impl.rs`, lines 25–53): for each declared column in order,
`Index(i)` resolves directly to `i`; `Name(n)` requires the header map and a
successful lookup, failing with the corresponding `ParseError` otherwise.
The first failing column aborts the whole resolution. -/
def resolveCols (tname : String) (hm : Option (List (String × Nat))) :
    List ColumnSpec → Except CsvParserError (List Nat)
  | [] => .ok []
  | c :: cs =>
    match c.column_identifier with
    | .Index i => (resolveCols tname hm cs).map (fun rest => i :: rest)
    | .Name n =>
      match hm with
      | none => .error (.ParseError tname (noHeaderMsg c.name n))
      | some m =>
        match lookupHeader m n with
        | none => .error (.ParseError tname (notFoundMsg c.name n))
        | some i => (resolveCols tname hm cs).map (fun rest => i :: rest)

/-- Embedding of `resolve_column_indices` (`csv_parser_impl.rs`, lines
25–53); the identical function also appears in `csv_table_reader.rs`. -/
def resolve_column_indices (t : TableSpec) (hm : Option (List (String × Nat))) :
    Except CsvParserError (List Nat) :=
  resolveCols t.name hm t.columns

/-- Embedding of `extract_row` (`csv_parser_impl.rs`, lines 55–60):
`indices.iter().map(|&i| strip_csv_field(record.get(i).unwrap_or(""))).collect()`. -/
def extract_row (record : List String) (indices : List Nat) : List String :=
  indices.map (fun i => strip_csv_field (record.getD i ""))

/-- Embedding of `CsvParserImpl::parse` (`csv_parser_impl.rs`, lines 64–104),
modelled at the level of the record list produced by the external `csv`
crate: when `has_header` the first record is the header row and the rest are
data; otherwise all records are data.  (Record-level syntax errors of the
`csv` crate are outside the embedding.) -/
def CsvParserImpl.parse (records : List (List String)) (t : TableSpec) :
    Except CsvParserError Table :=
  let header_map := if t.has_header then some (buildHeaderMap (records.headD [])) else none
  let data := if t.has_header then records.tail else records
  match resolve_column_indices t header_map with
  | .error e => .error e
  | .ok indices =>
    .ok ⟨t.name, t.columns.map (fun c => c.name),
         data.map (fun r => extract_row r indices)⟩

/-- Resolved raw-source index of one declared column, used to state the
resolver's success behaviour. -/
def colIndex (hm : Option (List (String × Nat))) (c : ColumnSpec) : Option Nat :=
  match c.column_identifier with
  | .Index i => some i
  | .Name n => hm.bind (fun m => lookupHeader m n)

theorem resolveCols_ok_of_all (tname : String) (hm : Option (List (String × Nat)))
    (cs : List ColumnSpec) (h : ∀ c ∈ cs, (colIndex hm c).isSome) :
    resolveCols tname hm cs = .ok (cs.map (fun c => (colIndex hm c).getD 0)) := by
  induction cs with
  | nil => rfl
  | cons c cs ih =>
    have hc := h c (List.mem_cons_self c cs)
    have htail := ih (fun x hx => h x (List.mem_cons_of_mem c hx))
    cases hci : c.column_identifier with
    | Index i =>
      simp [resolveCols, hci, htail, colIndex, Except.map]
    | Name n =>
      simp only [colIndex, hci] at hc
      cases hhm : hm with
      | none => rw [hhm] at hc; simp at hc
      | some m =>
        rw [hhm] at hc
        cases hlk : lookupHeader m n with
        | none => simp [hlk] at hc
        | some i =>
          rw [hhm] at htail
          simp [resolveCols, hci, hlk, htail, colIndex, hhm, Except.map]

theorem resolveCols_ok_length (tname : String) (hm : Option (List (String × Nat)))
    (cs : List ColumnSpec) (idxs : List Nat)
    (h : resolveCols tname hm cs = .ok idxs) : idxs.length = cs.length := by
  induction cs generalizing idxs with
  | nil => simp [resolveCols] at h; simp [← h]
  | cons c cs ih =>
    cases hci : c.column_identifier with
    | Index i =>
      simp only [resolveCols, hci] at h
      cases hr : resolveCols tname hm cs with
      | error e => rw [hr] at h; simp [Except.map] at h
      | ok rest =>
        rw [hr] at h
        simp [Except.map] at h
        simp [← h, ih rest hr]
    | Name n =>
      cases hhm : hm with
      | none => simp [resolveCols, hci, hhm] at h
      | some m =>
        cases hlk : lookupHeader m n with
        | none => simp [resolveCols, hci, hhm, hlk] at h
        | some i =>
          simp only [resolveCols, hci, hhm, hlk] at h
          cases hr : resolveCols tname (some m) cs with
          | error e => rw [hr] at h; simp [Except.map] at h
          | ok rest =>
            rw [hr] at h
            simp [Except.map] at h
            simp [← h, ih rest (by rw [hhm]; exact hr)]


theorem resolveCols_cons_ok (tname : String) (hm : Option (List (String × Nat)))
    (c0 : ColumnSpec) (cs : List ColumnSpec) (idxs : List Nat)
    (h : resolveCols tname hm (c0 :: cs) = .ok idxs) :
    ∃ x rest, idxs = x :: rest ∧ resolveCols tname hm cs = .ok rest ∧
      colIndex hm c0 = some x := by
  cases hci : c0.column_identifier with
  | Index i =>
    simp only [resolveCols, hci] at h
    cases hr : resolveCols tname hm cs with
    | error e => rw [hr] at h; simp [Except.map] at h
    | ok rest =>
      rw [hr] at h
      simp [Except.map] at h
      subst h
      exact ⟨i, rest, rfl, rfl, by simp [colIndex, hci]⟩
  | Name n =>
    cases hhm : hm with
    | none => simp [resolveCols, hci, hhm] at h
    | some m =>
      cases hlk : lookupHeader m n with
      | none => simp [resolveCols, hci, hhm, hlk] at h
      | some i =>
        simp only [resolveCols, hci, hhm, hlk] at h
        cases hr : resolveCols tname (some m) cs with
        | error e => rw [hr] at h; simp [Except.map] at h
        | ok rest =>
          rw [hr] at h
          simp [Except.map] at h
          subst h
          exact ⟨i, rest, rfl, rfl, by simp [colIndex, hci, hlk]⟩

theorem resolveCols_index_direct (tname : String) (hm : Option (List (String × Nat)))
    (cs : List ColumnSpec) (idxs : List Nat)
    (h : resolveCols tname hm cs = .ok idxs) :
    ∀ (j : Nat) (c : ColumnSpec) (i : Nat),
      cs[j]? = some c → c.column_identifier = ColumnIdentifier.Index i →
      idxs[j]? = some i := by
  induction cs generalizing idxs with
  | nil => intro j c i hc hid; simp at hc
  | cons c0 cs ih =>
    intro j c i hc hid
    obtain ⟨x, rest, rfl, hrest, hx⟩ := resolveCols_cons_ok _ _ _ _ _ h
    cases j with
    | zero =>
      simp only [List.getElem?_cons_zero, Option.some.injEq] at hc
      subst hc
      simp only [colIndex, hid] at hx
      simp [hx.symm]
    | succ j' =>
      simp only [List.getElem?_cons_succ] at hc ⊢
      exact ih rest hrest j' c i hc hid

theorem resolveCols_none_header_error (tname : String) (cs : List ColumnSpec)
    (h : ∃ c ∈ cs, ∃ n, c.column_identifier = ColumnIdentifier.Name n) :
    ∃ cn nn, resolveCols tname none cs =
      .error (.ParseError tname (noHeaderMsg cn nn)) := by
  induction cs with
  | nil => obtain ⟨c, hc, _⟩ := h; simp at hc
  | cons c0 cs ih =>
    cases hci : c0.column_identifier with
    | Name n => exact ⟨c0.name, n, by simp [resolveCols, hci]⟩
    | Index i =>
      obtain ⟨c, hc, n, hn⟩ := h
      rcases List.mem_cons.mp hc with rfl | hmem
      · rw [hci] at hn; cases hn
      · obtain ⟨cn, nn, herr⟩ := ih ⟨c, hmem, n, hn⟩
        exact ⟨cn, nn, by simp [resolveCols, hci, herr, Except.map]⟩

theorem resolveCols_not_found_error (tname : String) (m : List (String × Nat))
    (cs : List ColumnSpec)
    (h : ∃ c ∈ cs, ∃ n, c.column_identifier = ColumnIdentifier.Name n ∧
      lookupHeader m n = none) :
    ∃ cn nn, resolveCols tname (some m) cs =
      .error (.ParseError tname (notFoundMsg cn nn)) ∧ lookupHeader m nn = none := by
  induction cs with
  | nil => obtain ⟨c, hc, _⟩ := h; simp at hc
  | cons c0 cs ih =>
    cases hci : c0.column_identifier with
    | Index i =>
      obtain ⟨c, hc, n, hn, hnone⟩ := h
      rcases List.mem_cons.mp hc with rfl | hmem
      · rw [hci] at hn; cases hn
      · obtain ⟨cn, nn, herr, hln⟩ := ih ⟨c, hmem, n, hn, hnone⟩
        exact ⟨cn, nn, by simp [resolveCols, hci, herr, Except.map], hln⟩
    | Name n0 =>
      cases hlk : lookupHeader m n0 with
      | none => exact ⟨c0.name, n0, by simp [resolveCols, hci, hlk], hlk⟩
      | some i =>
        obtain ⟨c, hc, n, hn, hnone⟩ := h
        rcases List.mem_cons.mp hc with rfl | hmem
        · rw [hci] at hn
          injection hn with hnn
          rw [hnn] at hlk
          rw [hlk] at hnone
          cases hnone
        · obtain ⟨cn, nn, herr, hln⟩ := ih ⟨c, hmem, n, hn, hnone⟩
          exact ⟨cn, nn, by simp [resolveCols, hci, hlk, herr, Except.map], hln⟩

/-- Claim C2.  For every table spec: a declared `Name(n)` column makes
resolution fail with the "name identifier used without header" `ParseError`
whenever the header map is absent, and with the "header not found"
`ParseError` whenever the map is present but `n` is absent from it (so
resolution never silently returns, in particular never an empty column);
`Index(i)` columns always resolve directly to `i` — an all-`Index` spec
resolves successfully under any header map, with no validation of `i`
against any row width (resolution never even sees row data). -/
theorem resolve_column_indices_error_kinds (t : TableSpec) (m : List (String × Nat)) :
    ((∃ c ∈ t.columns, ∃ n, c.column_identifier = ColumnIdentifier.Name n) →
      ∃ cn nn, resolve_column_indices t none =
        .error (.ParseError t.name (noHeaderMsg cn nn))) ∧
    ((∃ c ∈ t.columns, ∃ n, c.column_identifier = ColumnIdentifier.Name n ∧
        lookupHeader m n = none) →
      ∃ cn nn, resolve_column_indices t (some m) =
        .error (.ParseError t.name (notFoundMsg cn nn)) ∧
        lookupHeader m nn = none) ∧
    (∀ (hm : Option (List (String × Nat))) (idxs : List Nat) (j : Nat)
        (c : ColumnSpec) (i : Nat), resolve_column_indices t hm = .ok idxs →
      t.columns[j]? = some c → c.column_identifier = ColumnIdentifier.Index i →
      idxs[j]? = some i) ∧
    ((∀ c ∈ t.columns, ∃ i, c.column_identifier = ColumnIdentifier.Index i) →
      ∀ hm, resolve_column_indices t hm =
        .ok (t.columns.map (fun c => (colIndex hm c).getD 0))) := by
  refine ⟨fun h => resolveCols_none_header_error t.name t.columns h,
          fun h => resolveCols_not_found_error t.name m t.columns h,
          fun hm idxs j c i h => resolveCols_index_direct t.name hm t.columns idxs h j c i,
          fun h hm => ?_⟩
  apply resolveCols_ok_of_all
  intro c hc
  obtain ⟨i, hi⟩ := h c hc
  simp [colIndex, hi]

/-- Claim C2 — witness: a table with one `Name("A")` column fails without a
header map and with an empty header map (with the respective messages), and a
table with one `Index(99)` column resolves to `[99]` even though no record
could be 100 fields wide. -/
theorem resolve_column_indices_error_kinds_witness :
    (∃ cn nn, resolve_column_indices
        (TableSpec.mk "t2" "" true (SourceSpec.File ⟨"f.csv", "utf-8"⟩)
          [⟨"col", "", ColumnIdentifier.Name "A", ColumnType.String⟩] []) none =
      .error (.ParseError "t2" (noHeaderMsg cn nn))) ∧
    (∃ cn nn, resolve_column_indices
        (TableSpec.mk "t2" "" true (SourceSpec.File ⟨"f.csv", "utf-8"⟩)
          [⟨"col", "", ColumnIdentifier.Name "A", ColumnType.String⟩] []) (some []) =
      .error (.ParseError "t2" (notFoundMsg cn nn)) ∧ lookupHeader [] nn = none) ∧
    resolve_column_indices
        (TableSpec.mk "t2i" "" false (SourceSpec.File ⟨"f.csv", "utf-8"⟩)
          [⟨"colx", "", ColumnIdentifier.Index 99, ColumnType.String⟩] []) none =
      .ok [99] := by
  refine ⟨?_, ?_, ?_⟩
  · exact (resolve_column_indices_error_kinds _ []).1
      ⟨⟨"col", "", ColumnIdentifier.Name "A", ColumnType.String⟩, by simp, "A", rfl⟩
  · exact (resolve_column_indices_error_kinds _ []).2.1
      ⟨⟨"col", "", ColumnIdentifier.Name "A", ColumnType.String⟩, by simp, "A", rfl, rfl⟩
  · have h := (resolve_column_indices_error_kinds
        (TableSpec.mk "t2i" "" false (SourceSpec.File ⟨"f.csv", "utf-8"⟩)
          [⟨"colx", "", ColumnIdentifier.Index 99, ColumnType.String⟩] []) []).2.2.2
      (fun c hc => by
        simp at hc
        exact ⟨99, by rw [hc]⟩) none
    simpa [colIndex] using h

/-- Claim C1.  For a table spec with `has_header = true` whose declared
columns all use `Name` identifiers present in the parsed header, parsing
succeeds and yields a `Table` whose columns are the declared column names in
declaration order, and whose every row lists the extracted fields in that
same declared order — each cell is read from the raw-source position that the
header lookup assigns to that column's name, so the result is independent of
the physical order of the source's header. -/
theorem parse_declared_order (t : TableSpec) (hdr : List String)
    (rows : List (List String)) (hh : t.has_header = true)
    (hres : ∀ c ∈ t.columns, ∃ n, c.column_identifier = ColumnIdentifier.Name n ∧
      (lookupHeader (buildHeaderMap hdr) n).isSome) :
    CsvParserImpl.parse (hdr :: rows) t =
      .ok ⟨t.name, t.columns.map (fun c => c.name),
           rows.map (fun r => t.columns.map (fun c =>
             strip_csv_field
               (r.getD ((colIndex (some (buildHeaderMap hdr)) c).getD 0) "")))⟩ := by
  have hall : ∀ c ∈ t.columns, (colIndex (some (buildHeaderMap hdr)) c).isSome := by
    intro c hc
    obtain ⟨n, hn, hsome⟩ := hres c hc
    simpa [colIndex, hn] using hsome
  have hresolve := resolveCols_ok_of_all t.name (some (buildHeaderMap hdr)) t.columns hall
  simp only [CsvParserImpl.parse, hh, if_true, List.headD, List.tail_cons]
  rw [resolve_column_indices] at *
  rw [hresolve]
  simp [extract_row, List.map_map, Function.comp]

/-- Claim C1 — witness: the spec's own example.  Header `A,B,C` with declared
columns `[C, A]` over data row `1,2,3` yields the single row `[3, 1]` under
the declared column names. -/
theorem parse_declared_order_witness :
    CsvParserImpl.parse [["A", "B", "C"], ["1", "2", "3"]]
      (TableSpec.mk "t1" "" true (SourceSpec.File ⟨"t.csv", "utf-8"⟩)
        [⟨"col_c", "", ColumnIdentifier.Name "C", ColumnType.String⟩,
         ⟨"col_a", "", ColumnIdentifier.Name "A", ColumnType.String⟩] []) =
      .ok ⟨"t1", ["col_c", "col_a"], [["3", "1"]]⟩ := by
  refine (parse_declared_order
      (TableSpec.mk "t1" "" true (SourceSpec.File ⟨"t.csv", "utf-8"⟩)
        [⟨"col_c", "", ColumnIdentifier.Name "C", ColumnType.String⟩,
         ⟨"col_a", "", ColumnIdentifier.Name "A", ColumnType.String⟩] [])
      ["A", "B", "C"] [["1", "2", "3"]] rfl ?_).trans ?_
  · intro c hc
    fin_cases hc
    · exact ⟨"C", rfl, by decide⟩
    · exact ⟨"A", rfl, by decide⟩
  · decide

/-- Claim C3.  Every row of a successfully parsed table has exactly
`len(columns)` entries, one per declared column; extracting a record at a
resolved index at or beyond the record's physical width substitutes the empty
string rather than failing, so rows are never partially populated and
extraction never errors on narrow records. -/
theorem parse_row_width_invariant (records : List (List String)) (t : TableSpec)
    (tbl : Table) (hp : CsvParserImpl.parse records t = .ok tbl) :
    (∀ row ∈ tbl.rows, row.length = tbl.columns.length) ∧
    tbl.columns.length = t.columns.length ∧
    (∀ (record : List String) (indices : List Nat) (j i : Nat),
      indices[j]? = some i → record.length ≤ i →
      (extract_row record indices)[j]? = some "") := by
  simp only [CsvParserImpl.parse] at hp
  cases hres : resolve_column_indices t
      (if t.has_header then some (buildHeaderMap (records.headD [])) else none) with
  | error e => rw [hres] at hp; cases hp
  | ok indices =>
    rw [hres] at hp
    have hlen := resolveCols_ok_length t.name _ t.columns indices hres
    have htbl : tbl = ⟨t.name, t.columns.map (fun c => c.name),
        (if t.has_header then records.tail else records).map
          (fun r => extract_row r indices)⟩ := by
      cases hp; rfl
    subst htbl
    refine ⟨?_, by simp, ?_⟩
    · intro row hrow
      simp only [List.mem_map] at hrow
      obtain ⟨r, _, hr⟩ := hrow
      subst hr
      simp [extract_row, hlen]
    · intro record indices2 j i hj hlenrec
      have hmap : (extract_row record indices2)[j]? =
          (indices2[j]?).map (fun i => strip_csv_field (record.getD i "")) := by
        simp [extract_row, List.getElem?_map]
      rw [hmap, hj]
      have hnone : record[i]? = none := List.getElem?_eq_none hlenrec
      simp [List.getD, hnone]
      decide

/-- Claim C3 — witness: a no-header table declaring `Index(0)` and `Index(5)`
over the single one-field record `["x"]` produces the full-width row
`["x", ""]`, and extraction at out-of-range index 5 yields `""`. -/
theorem parse_row_width_invariant_witness :
    (∀ row ∈ (Table.mk "t3" ["a", "b"] [["x", ""]]).rows,
      row.length = (Table.mk "t3" ["a", "b"] [["x", ""]]).columns.length) ∧
    (extract_row ["x"] [0, 5])[1]? = some "" := by
  have h := parse_row_width_invariant [["x"]]
    (TableSpec.mk "t3" "" false (SourceSpec.File ⟨"f.csv", "utf-8"⟩)
      [⟨"a", "", ColumnIdentifier.Index 0, ColumnType.String⟩,
       ⟨"b", "", ColumnIdentifier.Index 5, ColumnType.String⟩] [])
    (Table.mk "t3" ["a", "b"] [["x", ""]]) (by decide)
  exact ⟨h.1, h.2.2 ["x"] [0, 5] 1 5 rfl (by decide)⟩

/-- Worker for the model of Rust `str::replace`: scans left to right; at skip
0 a pattern match emits the replacement and consumes the pattern (one char
here, the rest via the skip counter, during which no rescanning happens —
non-overlapping matches, as in Rust); otherwise the char is kept. -/
def replaceAllAux (tok rep : List Char) : Nat → List Char → List Char
  | _, [] => []
  | 0, c :: cs =>
    if tok.isPrefixOf (c :: cs) then rep ++ replaceAllAux tok rep (tok.length - 1) cs
    else c :: replaceAllAux tok rep 0 cs
  | skip + 1, _ :: cs => replaceAllAux tok rep skip cs

/-- Model of Rust `str::replace(tok, rep)` on char lists (for the nonempty
patterns used by the program): replace every non-overlapping occurrence of
`tok`, scanning left to right. -/
def replaceAll (tok rep s : List Char) : List Char := replaceAllAux tok rep 0 s

/-- Does `tok` occur (as a contiguous sublist) in `s`? -/
def containsTok (tok : List Char) : List Char → Bool
  | [] => tok.isEmpty
  | c :: cs => tok.isPrefixOf (c :: cs) || containsTok tok cs

/-- Embedding of `substitute_temp_path` (`cmd_csv_table_reader.rs`, lines
18–22): `args.iter().map(|a| a.replace("$TEMP_CSV_PATH", path)).collect()`. -/
def substitute_temp_path (args : List String) (path : String) : List String :=
  args.map (fun a => ⟨replaceAll "$TEMP_CSV_PATH".data path.data a.data⟩)

theorem replaceAllAux_skip (tok rep : List Char) :
    ∀ (skip : Nat) (cs : List Char),
    replaceAllAux tok rep skip cs = replaceAllAux tok rep 0 (cs.drop skip) := by
  intro skip
  induction skip with
  | zero => intro cs; rfl
  | succ k ih =>
    intro cs
    cases cs with
    | nil => rfl
    | cons c cs => simpa [replaceAllAux] using ih cs

theorem replaceAll_of_not_contains (tok rep : List Char) :
    ∀ s : List Char, containsTok tok s = false → replaceAll tok rep s = s := by
  intro s
  induction s with
  | nil => intro _; rfl
  | cons c cs ih =>
    intro h
    simp only [containsTok, Bool.or_eq_false_iff] at h
    show replaceAllAux tok rep 0 (c :: cs) = c :: cs
    simp only [replaceAllAux, h.1, Bool.false_eq_true, if_false]
    exact congrArg (c :: ·) (ih h.2)

theorem replaceAllAux_zero_cons (tok rep : List Char) (c : Char) (cs : List Char) :
    replaceAllAux tok rep 0 (c :: cs) =
      if tok.isPrefixOf (c :: cs) then
        rep ++ replaceAllAux tok rep (tok.length - 1) cs
      else c :: replaceAllAux tok rep 0 cs := rfl

theorem replaceAll_append_tok (tok rep : List Char) (htok : tok ≠ []) :
    ∀ (a b : List Char),
    (∀ p, p < a.length → tok.isPrefixOf ((a ++ tok ++ b).drop p) = false) →
    replaceAll tok rep (a ++ tok ++ b) = a ++ rep ++ replaceAll tok rep b := by
  intro a
  induction a with
  | nil =>
    intro b _
    obtain ⟨t0, ts, rfl⟩ := List.exists_cons_of_ne_nil htok
    have hl : ([] : List Char) ++ (t0 :: ts) ++ b = t0 :: (ts ++ b) := by simp
    have hpre : (t0 :: ts).isPrefixOf (t0 :: (ts ++ b)) = true :=
      List.isPrefixOf_iff_prefix.mpr ⟨b, by simp⟩
    show replaceAll (t0 :: ts) rep (([] : List Char) ++ (t0 :: ts) ++ b) = _
    rw [hl, replaceAll, replaceAllAux_zero_cons, if_pos hpre, replaceAllAux_skip]
    have hdrop : (ts ++ b).drop ((t0 :: ts).length - 1) = b := by
      simp [List.drop_left]
    rw [hdrop]
    simp [replaceAll]
  | cons c a' ih =>
    intro b hfirst
    have h0 : tok.isPrefixOf (c :: (a' ++ tok ++ b)) = false := by
      simpa using hfirst 0 (by simp)
    have hl : (c :: a') ++ tok ++ b = c :: (a' ++ tok ++ b) := by simp
    have hshift : ∀ p, p < a'.length →
        tok.isPrefixOf ((a' ++ tok ++ b).drop p) = false := by
      intro p hp
      have hp1 := hfirst (p + 1) (by simp; omega)
      rw [hl] at hp1
      simpa using hp1
    have hrec := ih b hshift
    show replaceAll tok rep ((c :: a') ++ tok ++ b) = _
    have h0' : ¬(tok.isPrefixOf (c :: (a' ++ tok ++ b)) = true) := by
      intro hcontra
      rw [h0] at hcontra
      exact absurd hcontra Bool.false_ne_true
    rw [hl, replaceAll, replaceAllAux_zero_cons, if_neg h0']
    rw [show replaceAllAux tok rep 0 (a' ++ tok ++ b) =
          replaceAll tok rep (a' ++ tok ++ b) from rfl, hrec]
    simp

/-- Claim C9.  Temp-file-mode argument substitution preserves the number and
order of arguments (each output arg comes from the input arg at the same
position), leaves every argument with no occurrence of `$TEMP_CSV_PATH`
entirely unchanged, and replaces every occurrence of the token — at each
occurrence (every position where the token is the first match in the
remaining text) the token is rewritten to the path and scanning continues
with the rest, not stopping after the first. -/
theorem substitute_temp_path_spec (args : List String) (path : String) :
    ((substitute_temp_path args path).length = args.length) ∧
    (∀ (j : Nat) (a : String), args[j]? = some a →
      (substitute_temp_path args path)[j]? =
        some ⟨replaceAll "$TEMP_CSV_PATH".data path.data a.data⟩) ∧
    (∀ a : String, containsTok "$TEMP_CSV_PATH".data a.data = false →
      replaceAll "$TEMP_CSV_PATH".data path.data a.data = a.data) ∧
    (∀ pre post : List Char,
      (∀ p, p < pre.length → "$TEMP_CSV_PATH".data.isPrefixOf
          ((pre ++ "$TEMP_CSV_PATH".data ++ post).drop p) = false) →
      replaceAll "$TEMP_CSV_PATH".data path.data
          (pre ++ "$TEMP_CSV_PATH".data ++ post) =
        pre ++ path.data ++ replaceAll "$TEMP_CSV_PATH".data path.data post) := by
  refine ⟨by simp [substitute_temp_path], ?_, ?_, ?_⟩
  · intro j a hj
    simp [substitute_temp_path, List.getElem?_map, hj]
  · intro a h
    exact replaceAll_of_not_contains _ _ a.data h
  · intro pre post hfirst
    exact replaceAll_append_tok _ _ (by decide) pre post hfirst

/-- Claim C9 — witness: an argument containing the token twice has both
occurrences replaced, and a token-free argument is unchanged. -/
theorem substitute_temp_path_witness :
    (substitute_temp_path ["run", "a$TEMP_CSV_PATHb$TEMP_CSV_PATHc"]
        "/tmp/t.csv")[1]? = some "a/tmp/t.csvb/tmp/t.csvc" ∧
    replaceAll "$TEMP_CSV_PATH".data "/tmp/t.csv".data "run".data = "run".data := by
  constructor
  · have h := (substitute_temp_path_spec
        ["run", "a$TEMP_CSV_PATHb$TEMP_CSV_PATHc"] "/tmp/t.csv").2.1 1
        "a$TEMP_CSV_PATHb$TEMP_CSV_PATHc" rfl
    rw [h]
    decide
  · exact (substitute_temp_path_spec ["run"] "/tmp/t.csv").2.2.1 "run" (by decide)

/-- Embedding of `TableReaderError` (`traits/table_reader.rs`).  The wrapped
`FileSystemError` payload is abstracted to its message string. -/
inductive TableReaderError where
  | NoReaderFound : String → TableReaderError
  | ReadError : (table_name : String) → (message : String) → TableReaderError
  | FileSystemError : String → TableReaderError
  | CsvParserError : CsvParserError → TableReaderError
deriving DecidableEq

/-- Embedding of `decode_bytes` (`cmd_csv_table_reader.rs`, lines 24–32).
The external `encoding_rs` crate is abstracted as a registry `reg` mapping an
encoding label to a strict decoder; a decoder returns `none` when the byte
sequence is invalid for the encoding (`had_errors` in the Rust), in which
case decoding is rejected — the lossy replacement output is never used. -/
def decode_bytes (reg : String → Option (List Nat → Option String))
    (bytes : List Nat) (encoding_label : String) : Except String String :=
  match reg encoding_label with
  | none => .error ("unsupported encoding: '" ++ encoding_label ++ "'")
  | some dec =>
    match dec bytes with
    | none => .error ("encoding errors while decoding as '" ++ encoding_label ++ "'")
    | some s => .ok s

/-- Outcome of `Command::output()` (captured-stdout mode): exit success flag,
`Display` of the exit status, raw stdout bytes, and the lossy-decoded stderr
(`String::from_utf8_lossy`). -/
structure ProcOutput where
  success : Bool
  status_str : String
  stdout_bytes : List Nat
  stderr_lossy : String

/-- Outcome of `Command::status()` (temp-file mode, stdio inherited). -/
structure ProcStatus where
  success : Bool
  status_str : String

/-- I/O outcomes supplied to the command reader model: the spawn result in
each mode, the generated temp path, and the temp-file read result. -/
structure CmdEnv where
  captured : Except String ProcOutput
  inherit_status : Except String ProcStatus
  temp_path_str : String
  temp_read : Except String (List Nat)

/-- Embedding of `CmdCsvTableReader::read_table` (`cmd_csv_table_reader.rs`,
lines 44–153).  Process and file effects come from `env`; the csv crate's
record splitting is the abstract `split`.  Temp-file-mode argument
substitution (`substitute_temp_path`, covered by its own theorem) and the
best-effort temp-file deletion (`let _ = remove_file`) do not influence the
returned value and are not repeated here. -/
def CmdCsvTableReader.read_table (reg : String → Option (List Nat → Option String))
    (split : String → List (List String)) (env : CmdEnv) (t : TableSpec) :
    Except TableReaderError Table :=
  match t.source with
  | .File _ => .error (.ReadError t.name "CmdCsvTableReader does not support file sources")
  | .Cmd cs =>
    let contentE : Except TableReaderError String :=
      if cs.stdout then
        match env.captured with
        | .error e => .error (.ReadError t.name
            ("failed to execute command '" ++ cs.command ++ "': " ++ e))
        | .ok output =>
          if output.success then
            match decode_bytes reg output.stdout_bytes cs.character_encoding with
            | .error msg => .error (.ReadError t.name msg)
            | .ok s => .ok s
          else
            .error (.ReadError t.name
              ("command '" ++ cs.command ++ "' exited with status " ++
               output.status_str ++ ": " ++ rustTrim output.stderr_lossy))
      else
        match env.inherit_status with
        | .error e => .error (.ReadError t.name
            ("failed to execute command '" ++ cs.command ++ "': " ++ e))
        | .ok st =>
          if st.success then
            match env.temp_read with
            | .error e => .error (.ReadError t.name
                ("failed to read temp file '" ++ env.temp_path_str ++ "': " ++ e))
            | .ok bytes =>
              match decode_bytes reg bytes cs.character_encoding with
              | .error msg => .error (.ReadError t.name msg)
              | .ok s => .ok s
          else
            .error (.ReadError t.name
              ("command '" ++ cs.command ++ "' exited with status " ++ st.status_str))
    match contentE with
    | .error e => .error e
    | .ok content =>
      match CsvParserImpl.parse (split content) t with
      | .error e => .error (.CsvParserError e)
      | .ok tbl => .ok tbl

/-- Claim C8.  For a `Cmd`-source table, in either delivery mode a non-zero
exit status of the spawned command always yields a `ReadError`
(`TableReadError`) for that table, and in captured-stdout mode the error
message contains (here: ends with) the trimmed text of the captured
stderr. -/
theorem cmd_nonzero_exit_is_error (reg : String → Option (List Nat → Option String))
    (split : String → List (List String)) (env : CmdEnv) (t : TableSpec)
    (cs : CmdSourceSpec) (hsrc : t.source = SourceSpec.Cmd cs) :
    (∀ output, cs.stdout = true → env.captured = .ok output → output.success = false →
      ∃ m, CmdCsvTableReader.read_table reg split env t =
          .error (.ReadError t.name m) ∧
        ∃ pre, m = pre ++ rustTrim output.stderr_lossy) ∧
    (∀ st, cs.stdout = false → env.inherit_status = .ok st → st.success = false →
      ∃ m, CmdCsvTableReader.read_table reg split env t =
        .error (.ReadError t.name m)) := by
  constructor
  · intro output hmode hcap hfail
    refine ⟨"command '" ++ cs.command ++ "' exited with status " ++
      output.status_str ++ ": " ++ rustTrim output.stderr_lossy, ?_, ?_⟩
    · simp [CmdCsvTableReader.read_table, hsrc, hmode, hcap, hfail]
    · exact ⟨"command '" ++ cs.command ++ "' exited with status " ++
        output.status_str ++ ": ", rfl⟩
  · intro st hmode hst hfail
    refine ⟨"command '" ++ cs.command ++ "' exited with status " ++ st.status_str, ?_⟩
    simp [CmdCsvTableReader.read_table, hsrc, hmode, hst, hfail]

/-- Claim C8 — witness: a command exiting unsuccessfully with stderr
`"  boom  "` in captured-stdout mode, and one in temp-file mode, each
produce a `ReadError`; the first message ends with the trimmed stderr. -/
theorem cmd_nonzero_exit_witness :
    (∃ m, CmdCsvTableReader.read_table (fun _ => none) (fun _ => [])
        (CmdEnv.mk (.ok (ProcOutput.mk false "exit status: 1" [] "  boom  "))
          (.error "unused") "/tmp/x.csv" (.error "unused"))
        (TableSpec.mk "tw" "" false (SourceSpec.Cmd
          (CmdSourceSpec.mk "bash" [] true "utf-8")) [] []) =
        .error (.ReadError "tw" m) ∧
      ∃ pre, m = pre ++ rustTrim "  boom  ") ∧
    (∃ m, CmdCsvTableReader.read_table (fun _ => none) (fun _ => [])
        (CmdEnv.mk (.error "unused")
          (.ok (ProcStatus.mk false "exit status: 2")) "/tmp/x.csv" (.error "unused"))
        (TableSpec.mk "tw2" "" false (SourceSpec.Cmd
          (CmdSourceSpec.mk "bash" [] false "utf-8")) [] []) =
        .error (.ReadError "tw2" m)) :=
  ⟨(cmd_nonzero_exit_is_error (fun _ => none) (fun _ => [])
      (CmdEnv.mk (.ok (ProcOutput.mk false "exit status: 1" [] "  boom  "))
        (.error "unused") "/tmp/x.csv" (.error "unused"))
      (TableSpec.mk "tw" "" false (SourceSpec.Cmd
        (CmdSourceSpec.mk "bash" [] true "utf-8")) [] [])
      (CmdSourceSpec.mk "bash" [] true "utf-8") rfl).1
    (ProcOutput.mk false "exit status: 1" [] "  boom  ") rfl rfl rfl,
   (cmd_nonzero_exit_is_error (fun _ => none) (fun _ => [])
      (CmdEnv.mk (.error "unused")
        (.ok (ProcStatus.mk false "exit status: 2")) "/tmp/x.csv" (.error "unused"))
      (TableSpec.mk "tw2" "" false (SourceSpec.Cmd
        (CmdSourceSpec.mk "bash" [] false "utf-8")) [] [])
      (CmdSourceSpec.mk "bash" [] false "utf-8") rfl).2
    (ProcStatus.mk false "exit status: 2") rfl rfl rfl⟩

/-- Embedding of `ProjectIOError` (`traits/project_io.rs`); wrapped payloads
abstracted to message strings. -/
inductive ProjectIOError where
  | FileError : String → ProjectIOError
  | SerializationError : String → ProjectIOError
deriving DecidableEq

/-- Embedding of `LoadError` (`traits/load.rs`). -/
inductive LoadError where
  | DirectoryNotFound : String → LoadError
  | ProjectFileNotFound : String → LoadError
  | IOError : ProjectIOError → LoadError
  | TableReaderError : TableReaderError → LoadError
deriving DecidableEq

/-- A `TableReader` trait object (`traits/table_reader.rs`): its `can_read`
predicate and its `read_table` operation (I/O outcomes baked in). -/
structure TableReaderSim where
  can_read : TableSpec → Bool
  read_table : TableSpec → Except TableReaderError Table

/-- Embedding of the free function `read` (`traits/table_reader.rs`, lines
27–38): iterate the readers in list order, the first whose `can_read`
accepts performs the read; `NoReaderFound` otherwise. -/
def read (readers : List TableReaderSim) (t : TableSpec) :
    Except TableReaderError Table :=
  match readers.find? (fun r => r.can_read t) with
  | some r => r.read_table t
  | none => .error (.NoReaderFound t.name)

/-- Embedding of `LoadImpl::read_tables` (`load_impl.rs`, lines 32–46): read
each table spec in declaration order, appending results; the `?` operator
aborts on the first error, converting it into a `LoadError`. -/
def read_tables (readers : List TableReaderSim) :
    List TableSpec → Except LoadError (List Table)
  | [] => .ok []
  | t :: ts =>
    match read readers t with
    | .error e => .error (.TableReaderError e)
    | .ok tab =>
      match read_tables readers ts with
      | .error e => .error e
      | .ok rest => .ok (tab :: rest)

/-- Embedding of `DBLOADA_PROJECT_FILENAME` and `project_file_path`
(`load_impl.rs`, lines 7–11), with `Path::join` modelled as string
concatenation. -/
def DBLOADA_PROJECT_FILENAME : String := "dbloada.yaml"

def project_file_path (dir : String) : String :=
  dir ++ "/" ++ DBLOADA_PROJECT_FILENAME

/-- Filesystem/project-store outcomes supplied to the loader model: whether
the project directory exists and is a directory, whether the project file
exists, the project-store load result, and the table readers. -/
structure LoadEnv where
  dir_is_dir : Bool
  project_file_exists : Bool
  project_result : Except ProjectIOError Project
  readers : List TableReaderSim

/-- Embedding of `LoadImpl::load` (`load_impl.rs`, lines 51–69): directory
check, project-file check, project load, then `read_tables`. -/
def LoadImpl.load (env : LoadEnv) (path : String) : Except LoadError LoadedProject :=
  if ¬env.dir_is_dir then .error (.DirectoryNotFound path)
  else if ¬env.project_file_exists then
    .error (.ProjectFileNotFound (project_file_path path))
  else
    match env.project_result with
    | .error e => .error (.IOError e)
    | .ok project =>
      match read_tables env.readers project.spec.tables with
      | .error e => .error e
      | .ok tables => .ok ⟨project, tables⟩

theorem read_tables_error_on_first (readers : List TableReaderSim) :
    ∀ (pre : List TableSpec) (t : TableSpec) (post : List TableSpec)
      (e : TableReaderError),
    (∀ s ∈ pre, ∃ tb, read readers s = .ok tb) →
    read readers t = .error e →
    read_tables readers (pre ++ t :: post) = .error (.TableReaderError e) := by
  intro pre
  induction pre with
  | nil =>
    intro t post e _ herr
    simp [read_tables, herr]
  | cons s pre ih =>
    intro t post e hok herr
    obtain ⟨tb, htb⟩ := hok s (List.mem_cons_self s pre)
    have hrest := ih t post e (fun x hx => hok x (List.mem_cons_of_mem s hx)) herr
    simp [read_tables, htb, hrest]

theorem read_tables_ok_order (readers : List TableReaderSim) :
    ∀ (ts : List TableSpec) (tables : List Table),
    read_tables readers ts = .ok tables →
    tables.length = ts.length ∧
    ∀ (j : Nat) (s : TableSpec), ts[j]? = some s →
      ∃ tb, read readers s = .ok tb ∧ tables[j]? = some tb := by
  intro ts
  induction ts with
  | nil =>
    intro tables h
    simp [read_tables] at h
    subst h
    exact ⟨rfl, fun j s hs => by simp at hs⟩
  | cons t ts ih =>
    intro tables h
    simp only [read_tables] at h
    cases hr : read readers t with
    | error e => rw [hr] at h; cases h
    | ok tab =>
      rw [hr] at h
      cases hrest : read_tables readers ts with
      | error e => rw [hrest] at h; cases h
      | ok rest =>
        rw [hrest] at h
        cases h
        obtain ⟨hlen, hcorr⟩ := ih rest hrest
        refine ⟨by simp [hlen], ?_⟩
        intro j s hs
        cases j with
        | zero =>
          simp only [List.getElem?_cons_zero, Option.some.injEq] at hs
          subst hs
          exact ⟨tab, hr, by simp⟩
        | succ j' =>
          simp only [List.getElem?_cons_succ] at hs ⊢
          exact hcorr j' s hs

/-- Claim C5.  With the project directory and project file present and the
project store succeeding, `Loader.load` reads tables strictly in declaration
order: if every table before some position reads successfully and the table
at that position fails with `e`, the load returns exactly that error and no
`LoadedProject` is produced; and when the load succeeds, the returned tables
correspond one-to-one, in order, to the declared table specs. -/
theorem load_first_error_aborts (env : LoadEnv) (path : String) (proj : Project)
    (hdir : env.dir_is_dir = true) (hfile : env.project_file_exists = true)
    (hproj : env.project_result = .ok proj) :
    (∀ (pre : List TableSpec) (t : TableSpec) (post : List TableSpec)
        (e : TableReaderError),
      proj.spec.tables = pre ++ t :: post →
      (∀ s ∈ pre, ∃ tb, read env.readers s = .ok tb) →
      read env.readers t = .error e →
      LoadImpl.load env path = .error (.TableReaderError e)) ∧
    (∀ lp, LoadImpl.load env path = .ok lp →
      lp.project = proj ∧ lp.tables.length = proj.spec.tables.length ∧
      ∀ (j : Nat) (s : TableSpec), proj.spec.tables[j]? = some s →
        ∃ tb, read env.readers s = .ok tb ∧ lp.tables[j]? = some tb) := by
  constructor
  · intro pre t post e hsplit hok herr
    have hrt := read_tables_error_on_first env.readers pre t post e hok herr
    rw [← hsplit] at hrt
    simp [LoadImpl.load, hdir, hfile, hproj, hrt]
  · intro lp hlp
    simp only [LoadImpl.load, hdir, hfile, hproj] at hlp
    cases hrt : read_tables env.readers proj.spec.tables with
    | error e => rw [hrt] at hlp; cases hlp
    | ok tables =>
      rw [hrt] at hlp
      cases hlp
      obtain ⟨hlen, hcorr⟩ := read_tables_ok_order env.readers proj.spec.tables tables hrt
      exact ⟨rfl, hlen, hcorr⟩

/-- Claim C5 — witness: two table specs where only the second table's read
fails; the load returns that error even though the first table reads
successfully in isolation. -/
theorem load_first_error_aborts_witness :
    LoadImpl.load
      (LoadEnv.mk true true
        (.ok (Project.mk "p" "project.dbloada.io/v1" (ProjectSpec.mk
          [TableSpec.mk "good" "" false
            (SourceSpec.File ⟨"good.csv", "utf-8"⟩) [] [],
           TableSpec.mk "bad" "" false
            (SourceSpec.File ⟨"missing.csv", "utf-8"⟩) [] []])))
        [TableReaderSim.mk (fun _ => true)
          (fun t => if t.name = "good" then .ok (Table.mk "good" [] [])
                    else .error (.ReadError t.name "file not found"))])
      "/proj" =
    .error (.TableReaderError (.ReadError "bad" "file not found")) :=
  (load_first_error_aborts
    (LoadEnv.mk true true
      (.ok (Project.mk "p" "project.dbloada.io/v1" (ProjectSpec.mk
        [TableSpec.mk "good" "" false
          (SourceSpec.File ⟨"good.csv", "utf-8"⟩) [] [],
         TableSpec.mk "bad" "" false
          (SourceSpec.File ⟨"missing.csv", "utf-8"⟩) [] []])))
      [TableReaderSim.mk (fun _ => true)
        (fun t => if t.name = "good" then .ok (Table.mk "good" [] [])
                  else .error (.ReadError t.name "file not found"))])
    "/proj"
    (Project.mk "p" "project.dbloada.io/v1" (ProjectSpec.mk
      [TableSpec.mk "good" "" false
        (SourceSpec.File ⟨"good.csv", "utf-8"⟩) [] [],
       TableSpec.mk "bad" "" false
        (SourceSpec.File ⟨"missing.csv", "utf-8"⟩) [] []]))
    rfl rfl rfl).1
    [TableSpec.mk "good" "" false (SourceSpec.File ⟨"good.csv", "utf-8"⟩) [] []]
    (TableSpec.mk "bad" "" false (SourceSpec.File ⟨"missing.csv", "utf-8"⟩) [] [])
    [] (.ReadError "bad" "file not found") rfl
    (fun s hs => by
      simp only [List.mem_singleton] at hs
      subst hs
      exact ⟨Table.mk "good" [] [], rfl⟩)
    rfl

/-- Modelled from the spec: the UTF-8 label test of the static file reader
(spec §4.4, "UTF-8, case-insensitive, with or without hyphen").  The current
`CsvTableReader::read_table` is missing from the source tree: the
`csv_table_reader.rs` present is a stale revision (it uses a pre-enum
`SourceSpec` shape and a two-argument constructor, contradicting
`models/project.rs` and the three-argument call sites in `load_impl.rs`
tests, and has no encoding handling), so the encoding step is modelled from
the spec's words. -/
def lowerAscii (c : Char) : Char :=
  if 65 ≤ c.toNat ∧ c.toNat ≤ 90 then Char.ofNat (c.toNat + 32) else c

def is_utf8_label (enc : String) : Bool :=
  enc.data.map lowerAscii = "utf-8".data || enc.data.map lowerAscii = "utf8".data

/-- Modelled from the spec: the character-encoding handling of the static
file reader (spec §4.4).  If the declared encoding is UTF-8 the loaded text
is used directly; otherwise the raw file bytes are decoded strictly via the
named encoding (same `decode_bytes` contract as the command reader):
unrecognized labels and invalid byte sequences are errors, never lossy
substitutions. -/
def static_read_content (reg : String → Option (List Nat → Option String))
    (character_encoding : String) (loaded_text : String) (raw_bytes : List Nat) :
    Except String String :=
  if is_utf8_label character_encoding then .ok loaded_text
  else decode_bytes reg raw_bytes character_encoding

/-- Claim C4.  For a File-source read: a UTF-8 encoding label (in any casing,
with or without hyphen) makes the reader use the loaded text directly; any
other label routes through strict decoding of the raw bytes, which errors on
an unrecognized label and on bytes invalid for the encoding, and succeeds
only with the decoder's exact output (no lossy substitution). -/
theorem static_read_encoding_behavior
    (reg : String → Option (List Nat → Option String)) (enc : String)
    (text : String) (bytes : List Nat) :
    (is_utf8_label enc = true →
      static_read_content reg enc text bytes = .ok text) ∧
    (is_utf8_label enc = false → reg enc = none →
      static_read_content reg enc text bytes =
        .error ("unsupported encoding: '" ++ enc ++ "'")) ∧
    (∀ dec, is_utf8_label enc = false → reg enc = some dec → dec bytes = none →
      static_read_content reg enc text bytes =
        .error ("encoding errors while decoding as '" ++ enc ++ "'")) ∧
    (∀ dec s, is_utf8_label enc = false → reg enc = some dec →
      dec bytes = some s →
      static_read_content reg enc text bytes = .ok s) := by
  refine ⟨fun hu => ?_, fun hu hr => ?_, fun dec hu hr hd => ?_,
          fun dec s hu hr hd => ?_⟩
  · simp [static_read_content, hu]
  · simp [static_read_content, decode_bytes, hu, hr]
  · simp [static_read_content, decode_bytes, hu, hr, hd]
  · simp [static_read_content, decode_bytes, hu, hr, hd]

/-- Claim C4 — witness over a one-entry registry (`"x-test"` decodes byte
lists that contain no byte ≥ 128, to `"ok"`): `"UTF-8"` and `"utf8"` pass
the text through, an unknown label errors, invalid bytes error, and valid
bytes decode. -/
theorem static_read_encoding_behavior_witness :
    static_read_content
        (fun l => if l = "x-test"
          then some (fun bs => if bs.all (· < 128) then some "ok" else none)
          else none) "UTF-8" "direct" [0xFF] = .ok "direct" ∧
    static_read_content
        (fun l => if l = "x-test"
          then some (fun bs => if bs.all (· < 128) then some "ok" else none)
          else none) "latin1" "direct" [] =
      .error ("unsupported encoding: '" ++ "latin1" ++ "'") ∧
    static_read_content
        (fun l => if l = "x-test"
          then some (fun bs => if bs.all (· < 128) then some "ok" else none)
          else none) "x-test" "direct" [0xFF] =
      .error ("encoding errors while decoding as '" ++ "x-test" ++ "'") ∧
    static_read_content
        (fun l => if l = "x-test"
          then some (fun bs => if bs.all (· < 128) then some "ok" else none)
          else none) "x-test" "direct" [0x41] = .ok "ok" :=
  ⟨(static_read_encoding_behavior _ "UTF-8" "direct" [0xFF]).1 (by decide),
   (static_read_encoding_behavior _ "latin1" "direct" []).2.1 (by decide) rfl,
   (static_read_encoding_behavior _ "x-test" "direct" [0xFF]).2.2.1
     (fun bs => if bs.all (· < 128) then some "ok" else none) (by decide) rfl rfl,
   (static_read_encoding_behavior _ "x-test" "direct" [0x41]).2.2.2
     (fun bs => if bs.all (· < 128) then some "ok" else none) "ok"
     (by decide) rfl rfl⟩

end Dbloada
